import Mathlib

/-!
Verification of the data-layout and redistribution subsystem of the `heat`
distributed tensor library (`heat/core/tensor.py`).

The local data of a process is modelled as a row-major flat buffer together
with its shape (`NDBuffer`).  The communication module (`heat.core.communication`)
and `heat.core.stride_tricks` are referenced by `tensor.py` but are not part of
the sources; their operations (`counts_displs_shape`, `chunk`, `Allgatherv`,
`Alltoallv`, `sanitize_axis`) are modelled from the specification, as indicated
in their doc comments.  `Tensor.resplit`, `Tensor.setitem`, `Tensor.eq` and
`Tensor.getitem` are translated directly from `tensor.py`.
-/

namespace Heat

/-- A local torch buffer: row-major flat data together with its shape. -/
structure NDBuffer where
  shape : List Nat
  data : List Int
deriving DecidableEq

/-- A buffer is well-formed when its flat data has exactly as many entries as
its shape prescribes. -/
def NDBuffer.wf (b : NDBuffer) : Prop := b.data.length = b.shape.prod

/-- Modelled from the spec (section 4.1, Partition Calculator; the calculator
itself lives in the communication module, which is not under the sources):
per-process counts for dividing `extent` items over `p` processes as evenly as
possible, the remainder going to the lowest ranks: rank `r` receives
`extent / p + 1` items if `r < extent % p` and `extent / p` items otherwise. -/
def counts (extent p : Nat) : List Nat :=
  (List.range p).map (fun r => extent / p + if r < extent % p then 1 else 0)

/-- Modelled from the spec (section 3, Partition Descriptor): the displacement
of rank `r` is the sum of the counts of all lower ranks. -/
def displs (extent p : Nat) : List Nat :=
  (List.range p).map (fun r => ((counts extent p).take r).sum)

/-- Product of the extents of the axes before `axis` (row-major outer size). -/
def outerSize (shape : List Nat) (axis : Nat) : Nat := (shape.take axis).prod

/-- Product of the extents of the axes after `axis` (row-major inner size). -/
def innerSize (shape : List Nat) (axis : Nat) : Nat := (shape.drop (axis + 1)).prod

/-- Extent of a shape along a given axis. -/
def axisExtent (shape : List Nat) (axis : Nat) : Nat := shape.getD axis 0

/-- Number of flat entries of one full hyper-row along `axis` inside one outer
block: `shape[axis] * innerSize`. -/
def rowLen (shape : List Nat) (axis : Nat) : Nat :=
  axisExtent shape axis * innerSize shape axis

/-- Slicing a buffer to the half-open index range `[lo, lo + len)` along
`axis`, keeping every other axis whole (row-major index arithmetic, the
meaning of `tensor[..., lo:lo+len, ...]` on a torch buffer). -/
def NDBuffer.sliceA (b : NDBuffer) (axis lo len : Nat) : NDBuffer :=
  ⟨b.shape.set axis len,
   (List.range (outerSize b.shape axis)).flatMap (fun o =>
     (((b.data.drop (o * rowLen b.shape axis)).take (rowLen b.shape axis)).drop
         (lo * innerSize b.shape axis)).take (len * innerSize b.shape axis))⟩

/-- Concatenation of a list of buffers along `axis`.  All buffers must agree
with `refShape` on every axis other than `axis`; the result has the summed
extent along `axis`.  Row-major: within every outer block the contributed
hyper-rows are laid out in list order. -/
def concatA (refShape : List Nat) (axis : Nat) (bs : List NDBuffer) : NDBuffer :=
  ⟨refShape.set axis (bs.map (fun b => axisExtent b.shape axis)).sum,
   (List.range (outerSize refShape axis)).flatMap (fun o =>
     (bs.map (fun b =>
       (b.data.drop (o * (axisExtent b.shape axis * innerSize refShape axis))).take
         (axisExtent b.shape axis * innerSize refShape axis))).flatten)⟩

/-- Modelled from the spec (section 4.2, `gather_all`; the communication module
is not under the sources): every process contributes its local buffer, reading
`recvCounts[r]` hyper-rows from rank `r`, and every process receives the fully
assembled buffer.  The chunk of rank `r` is placed at `recvDispls[r]` along
`targetAxis`; since the spec fixes `displacement[r] = sum(count[0..r))`,
placement at the displacements coincides with rank-order concatenation, which
is how the assembly is expressed here (`recvDispls` is therefore not consulted
separately). -/
def Allgatherv (refShape : List Nat) (bufs : List NDBuffer) (recvCounts : List Nat)
    (_recvDispls : List Nat) (targetAxis : Nat) : NDBuffer :=
  concatA refShape targetAxis
    ((bufs.zip recvCounts).map (fun bc => bc.1.sliceA targetAxis 0 bc.2))

/-- The send-side counts and displacements rank computes for the all-to-all
exchange: the partition of its local shape's extent along `axis`
(`tensor.py` line 1098, `counts_displs_shape(self.lshape, axis)`). -/
def sendParamsA2A (p : Nat) (lshape : List Nat) (axis : Nat) : List Nat × List Nat :=
  (counts (axisExtent lshape axis) p, displs (axisExtent lshape axis) p)

/-- The piece of sender `b`'s buffer that reaches the calling rank `me` in the
all-to-all exchange: the sender cuts its buffer along `sendAxis` using its own
send counts/displacements — `sendParamsA2A` of its own local shape
(`tensor.py` line 1098) evaluated at destination `me` — and the receiver
reads `c` hyper-rows from the piece along `recvAxis`. -/
def a2aPiece (p me sendAxis recvAxis : Nat) (c : Nat) (b : NDBuffer) : NDBuffer :=
  (b.sliceA sendAxis ((sendParamsA2A p b.shape sendAxis).2.getD me 0)
    ((sendParamsA2A p b.shape sendAxis).1.getD me 0)).sliceA recvAxis 0 c

/-- The pieces the calling rank `me` receives, one from every rank in rank
order, reading `recvCounts[r]` hyper-rows from the piece of rank `r`. -/
def a2aPieces (p me sendAxis recvAxis : Nat) (bufs : List NDBuffer)
    (recvCounts : List Nat) : List NDBuffer :=
  (bufs.zip recvCounts).map (fun bc => a2aPiece p me sendAxis recvAxis bc.2 bc.1)

/-- Modelled from the spec (section 4.2, `exchange_all`; the communication
module is not under the sources): every rank cuts its buffer along `sendAxis`
using its own send counts/displacements — in the SPMD execution rank `r`
passes `sendParamsA2A` of its own local shape (`tensor.py` line 1098), so the
piece the calling rank `me` receives from rank `r` is the slice of `r`'s
buffer at `r`'s send displacement and count for destination `me`.  The
received pieces are reassembled in rank order along `recvAxis`, reading
`recvCounts[r]` hyper-rows from the piece of rank `r`; as with `gather_all`,
placement at `recvDispls` coincides with rank-order concatenation because the
displacements are the prefix sums of the counts. -/
def Alltoallv (p : Nat) (refShape : List Nat) (bufs : List NDBuffer)
    (sendAxis recvAxis me : Nat) (recvCounts : List Nat) (_recvDispls : List Nat) : NDBuffer :=
  concatA refShape recvAxis (a2aPieces p me sendAxis recvAxis bufs recvCounts)

/-- The distributed tensor of `tensor.py`: local buffer, global shape, dtype
tag, split axis (`none` is Python's `None`, the unsplit state) and device tag.
The communicator handle is modelled by passing process count, rank and the
peers' local buffers to the operations that communicate. -/
structure Tensor where
  larray : NDBuffer
  gshape : List Nat
  dtype : Nat
  split : Option Nat
  device : Nat
deriving DecidableEq

/-- The `lshape` property of `tensor.py`: the shape of the local buffer. -/
def lshape (t : Tensor) : List Nat := t.larray.shape

/-- Modelled from the spec: `sanitize_axis` from `heat.core.stride_tricks` is
not under the sources.  Per the spec (section 3) a real split axis lies in
`[0, rank(GlobalShape))` and `None` denotes the unsplit state; an out-of-range
axis is rejected (outer `none` models the raised exception). -/
def sanitize_axis (shape : List Nat) (axis : Option Nat) : Option (Option Nat) :=
  match axis with
  | none => some none
  | some a => if a < shape.length then some (some a) else none

/-- Modelled from the spec: `comm.chunk` of the communication module (not
under the sources) returns the offset, the local shape and the slice bounds of
the calling rank for the canonical partition of `shape` along `axis`
(offset, localShape, sliceLo, sliceLen). -/
def chunk (p rank : Nat) (shape : List Nat) (axis : Nat) : Nat × List Nat × Nat × Nat :=
  let c := (counts (axisExtent shape axis) p).getD rank 0
  let d := (displs (axisExtent shape axis) p).getD rank 0
  (d, shape.set axis c, d, c)

/-- Modelled from the spec: `comm.counts_displs_shape` of the communication
module (not under the sources) returns the per-process counts and
displacements of the canonical partition of `shape[axis]`, plus a shape
component that `resplit` never consumes (it is always bound to `_`). -/
def counts_displs_shape (p : Nat) (shape : List Nat) (axis : Nat) :
    List Nat × List Nat × List Nat :=
  (counts (axisExtent shape axis) p, displs (axisExtent shape axis) p, shape)

/-- `Tensor.resplit` (`tensor.py` lines 1028-1110), translated case by case:
sanitize the axis, return unchanged on `axis == self.split`, gather when the
new axis is `None` (the gather assembles along the current split axis, per
spec section 4.3 case 2), slice locally when the tensor is currently unsplit,
and otherwise run the all-to-all exchange with send parameters from the local
shape along the new axis and receive parameters from the global shape along
the old split axis, reassembling along the old split axis
(`recv_axis=self.split`).  The boolean records whether a collective
communication was issued. -/
def Tensor.resplit (p me : Nat) (allLocals : List NDBuffer) (t : Tensor)
    (axis0 : Option Nat) : Option (Tensor × Bool) :=
  match sanitize_axis t.gshape axis0 with
  | none => none
  | some axis =>
    if axis = t.split then some (t, false)
    else
      match axis, t.split with
      | none, some s =>
        let rp := counts_displs_shape p t.gshape s
        let g := Allgatherv t.gshape allLocals rp.1 (rp.2.1) s
        some ({ t with larray := g, split := none }, true)
      | none, none =>
        -- unreachable: equal axes were handled by the early return above
        some (t, false)
      | some a, none =>
        let ck := chunk p me t.gshape a
        let g := t.larray.sliceA a (ck.2.2.1) (ck.2.2.2)
        some ({ t with larray := g, split := some a }, false)
      | some a, some s =>
        let oshape := (chunk p me t.gshape a).2.1
        let rp := counts_displs_shape p t.gshape s
        let g := Alltoallv p oshape allLocals a s me rp.1 (rp.2.1)
        some ({ t with larray := g, split := some a }, true)

/-- One collective `resplit` step of the whole process group: every rank runs
`Tensor.resplit` with the same target axis; the collectives see the local
buffers of all ranks. -/
def resplitWorld (world : List Tensor) (axis0 : Option Nat) :
    Option (List (Tensor × Bool)) :=
  ((List.range world.length).zip world).mapM
    (fun rt => Tensor.resplit world.length rt.1 (world.map (fun u => u.larray)) rt.2 axis0)

/-- The canonical layout of spec section 3: rank `r` holds the shape obtained
from the global shape by replacing the extent along the split axis `s` with
the canonical count of rank `r`, and its buffer is well-formed. -/
def canonicalSplit (p : Nat) (gs : List Nat) (s : Nat) (bufs : List NDBuffer) : Prop :=
  bufs.length = p ∧ ∀ r, ∀ _ : r < p,
    (bufs.getD r ⟨[], []⟩).shape
        = gs.set s ((counts (axisExtent gs s) p).getD r 0) ∧
    (bufs.getD r ⟨[], []⟩).wf

/-- The value argument of `Tensor.__setitem__`: a scalar, a tensor, or any
other Python object (the case its final `else` branch rejects). -/
inductive SItemValue where
  | scalar (v : Int)
  | tensor (t : Tensor)
  | other
deriving DecidableEq

/-- Overwriting a run of entries of a flat buffer starting at `k` (the local
torch write `self.__array[key] = value.__array` for an in-range key). -/
def writeAt (l : List Int) (k : Nat) (vs : List Int) : List Int :=
  l.take k ++ vs ++ l.drop (k + vs.length)

/-- `Tensor.__setitem__` (`tensor.py` lines 1196-1209): any write to a tensor
whose split axis is not `None` raises `NotImplementedError` before the buffer
is touched; otherwise a scalar or tensor value is written into the local
buffer (the local torch write is modelled on the flat data at a flat key) and
any other value type is rejected. -/
def Tensor.setitem (t : Tensor) (key : Nat) (value : SItemValue) : Except String Tensor :=
  if t.split ≠ none then
    Except.error "NotImplementedError: Slicing not supported for __split != None"
  else
    match value with
    | SItemValue.scalar v =>
      Except.ok { t with larray := ⟨t.larray.shape, t.larray.data.set key v⟩ }
    | SItemValue.tensor u =>
      Except.ok { t with larray := ⟨t.larray.shape, writeAt t.larray.data key u.larray.data⟩ }
    | SItemValue.other =>
      Except.error "NotImplementedError: Not implemented for value type"

/-- `Tensor.__eq__` (`tensor.py` lines 499-527): the method body consists only
of its documentation string, so the Python function body falls through and
returns `None` — never an element-wise comparison tensor. -/
def Tensor.eq (_t : Tensor) (_other : SItemValue) : Option Tensor := none

/-- A Python argument value passed positionally to the `Tensor` constructor. -/
inductive PyVal where
  | arr (b : NDBuffer)
  | shp (s : List Nat)
  | dt (d : Nat)
  | spl (s : Option Nat)
  | dev (d : Nat)
  | cm
deriving DecidableEq

/-- Python positional-call semantics of `Tensor.__init__` (`tensor.py` lines
26-32): the constructor has six parameters besides `self` (array, gshape,
dtype, split, device, comm).  Python checks the arity before the body runs: a
call with any other number of positional arguments raises `TypeError`; the
body itself performs no type checks and simply binds the arguments. -/
def tensorInitCall (args : List PyVal) : Except String (List PyVal) :=
  if args.length = 6 then Except.ok args
  else Except.error "TypeError: __init__ missing required positional arguments"

/-- `Tensor.__getitem__` (`tensor.py` lines 647-652): builds the result by
passing exactly five positional arguments (array, gshape, split, device, comm)
to the six-parameter constructor; `self.__array[key]` is modelled as the
selection of one hyper-row along axis 0. -/
def Tensor.getitem (t : Tensor) (key : Nat) : Except String (List PyVal) :=
  tensorInitCall [PyVal.arr (t.larray.sliceA 0 key 1), PyVal.shp t.gshape,
    PyVal.spl t.split, PyVal.dev t.device, PyVal.cm]

/-- The concrete world of the round-trip property: global shape `(9, 4)`,
split along axis 0 over 4 processes with counts `[3, 2, 2, 2]`, the global
row-major contents being `0, 1, ..., 35`. -/
def c4World : List Tensor :=
  [⟨⟨[3, 4], (List.range 12).map (fun i => Int.ofNat i)⟩, [9, 4], 0, some 0, 0⟩,
   ⟨⟨[2, 4], (List.range 8).map (fun i => Int.ofNat (12 + i))⟩, [9, 4], 0, some 0, 0⟩,
   ⟨⟨[2, 4], (List.range 8).map (fun i => Int.ofNat (20 + i))⟩, [9, 4], 0, some 0, 0⟩,
   ⟨⟨[2, 4], (List.range 8).map (fun i => Int.ofNat (28 + i))⟩, [9, 4], 0, some 0, 0⟩]

/-- Rank 0's tensor in the counterexample configuration for the axis-to-axis
case: global shape `(6, 4)`, split along axis 0 over 2 processes, so the local
shape is `(3, 4)`. -/
def c1T0 : Tensor :=
  ⟨⟨[3, 4], (List.range 12).map (fun i => Int.ofNat i)⟩, [6, 4], 0, some 0, 0⟩

/-- The two local buffers of the counterexample configuration. -/
def c1Locals : List NDBuffer :=
  [⟨[3, 4], (List.range 12).map (fun i => Int.ofNat i)⟩,
   ⟨[3, 4], (List.range 12).map (fun i => Int.ofNat (12 + i))⟩]

/-! Helper lemmas about the partition calculator. -/

theorem getD_range_map {α : Type} (f : Nat → α) (p r : Nat) (d : α) (h : r < p) :
    ((List.range p).map f).getD r d = f r := by
  rw [List.getD_eq_getElem _ _ (by simpa using h)]
  simp

theorem counts_length (extent p : Nat) : (counts extent p).length = p := by
  simp [counts]

theorem displs_length (extent p : Nat) : (displs extent p).length = p := by
  simp [displs]

theorem counts_getD (extent p r : Nat) (h : r < p) :
    (counts extent p).getD r 0 = extent / p + if r < extent % p then 1 else 0 :=
  getD_range_map _ p r 0 h

theorem displs_getD (extent p r : Nat) (h : r < p) :
    (displs extent p).getD r 0 = ((counts extent p).take r).sum :=
  getD_range_map _ p r 0 h

theorem sum_range_map_const (n c : Nat) : ((List.range n).map (fun _ => c)).sum = n * c := by
  induction n with
  | zero => simp
  | succ k ih =>
    rw [List.range_succ, List.map_append, List.sum_append]
    simp [ih, Nat.succ_mul]

theorem sum_range_map_add_ite (q m p : Nat) (hm : m ≤ p) :
    ((List.range p).map (fun r => q + if r < m then 1 else 0)).sum = p * q + m := by
  induction p with
  | zero =>
    have hm0 : m = 0 := Nat.le_zero.mp hm
    simp [hm0]
  | succ n ih =>
    rw [List.range_succ, List.map_append, List.sum_append]
    rcases Nat.lt_or_ge n m with h | h
    · have hm' : m = n + 1 := Nat.le_antisymm hm h
      subst hm'
      have hmap : ((List.range n).map (fun r => q + if r < n + 1 then 1 else 0))
          = (List.range n).map (fun _ => q + 1) := by
        apply List.map_congr_left
        intro x hx
        have : x < n + 1 := Nat.lt_succ_of_lt (List.mem_range.mp hx)
        simp [this]
      rw [hmap, sum_range_map_const]
      simp [Nat.succ_mul, Nat.mul_succ]
      ring
    · have hite : ¬ n < m := Nat.not_lt.mpr h
      rw [ih h]
      simp [hite, Nat.succ_mul]
      ring

theorem counts_sum (extent p : Nat) (hp : 1 ≤ p) : (counts extent p).sum = extent := by
  unfold counts
  rw [sum_range_map_add_ite (extent / p) (extent % p) p
      (Nat.le_of_lt (Nat.mod_lt extent hp))]
  exact Nat.div_add_mod extent p

theorem take_sum_getD (l : List Nat) (r : Nat) (h : r < l.length) :
    (l.take (r + 1)).sum = (l.take r).sum + l.getD r 0 := by
  rw [List.take_succ, List.getElem?_eq_getElem h, List.sum_append,
      List.getD_eq_getElem _ _ h]
  simp

theorem partition_bound (extent p r : Nat) (hp : 1 ≤ p) (hr : r < p) :
    (displs extent p).getD r 0 + (counts extent p).getD r 0 ≤ extent := by
  rw [displs_getD extent p r hr]
  have hlen : r < (counts extent p).length := by rw [counts_length]; exact hr
  have h1 := take_sum_getD (counts extent p) r hlen
  have h2 := List.sum_take_add_sum_drop (counts extent p) (r + 1)
  rw [counts_sum extent p hp] at h2
  omega

/-! Helper lemmas about List.set, take, drop and products. -/

theorem take_set_eq {α : Type} (l : List α) (n : Nat) (v : α) :
    (l.set n v).take n = l.take n := by
  induction l generalizing n with
  | nil => simp
  | cons a l ih =>
    cases n with
    | zero => simp
    | succ m => simp [List.set_cons_succ, List.take_succ_cons, ih]

theorem drop_set_succ {α : Type} (l : List α) (n : Nat) (v : α) :
    (l.set n v).drop (n + 1) = l.drop (n + 1) := by
  induction l generalizing n with
  | nil => simp
  | cons a l ih =>
    cases n with
    | zero => simp
    | succ m => simpa [List.set_cons_succ] using ih m

theorem getD_set_self {α : Type} (l : List α) (n : Nat) (v d : α) (h : n < l.length) :
    (l.set n v).getD n d = v := by
  rw [List.getD_eq_getElem _ _ (by simpa using h)]
  exact List.getElem_set_self _

theorem getD_set_ne {α : Type} (l : List α) (m n : Nat) (v d : α) (h : m ≠ n) :
    (l.set m v).getD n d = l.getD n d := by
  rcases Nat.lt_or_ge n l.length with hn | hn
  · rw [List.getD_eq_getElem _ _ (by simpa using hn), List.getD_eq_getElem _ _ hn]
    exact List.getElem_set_ne h _
  · rw [List.getD_eq_default _ _ (by simpa using hn), List.getD_eq_default _ _ hn]

theorem set_getD_self {α : Type} (l : List α) (n : Nat) (d : α) (h : n < l.length) :
    l.set n (l.getD n d) = l := by
  induction l generalizing n with
  | nil => simp at h
  | cons a l ih =>
    cases n with
    | zero => simp
    | succ m =>
      have hm : m < l.length := by simpa using h
      simp only [List.set_cons_succ, List.getD_cons_succ]
      rw [ih m hm]

theorem outerSize_set (l : List Nat) (a v : Nat) :
    outerSize (l.set a v) a = outerSize l a := by
  unfold outerSize
  rw [take_set_eq]

theorem innerSize_set (l : List Nat) (a v : Nat) :
    innerSize (l.set a v) a = innerSize l a := by
  unfold innerSize
  rw [drop_set_succ]

theorem axisExtent_set_self (l : List Nat) (a v : Nat) (h : a < l.length) :
    axisExtent (l.set a v) a = v :=
  getD_set_self l a v 0 h

theorem axisExtent_set_ne (l : List Nat) (a b v : Nat) (h : a ≠ b) :
    axisExtent (l.set a v) b = axisExtent l b :=
  getD_set_ne l a b v 0 h

theorem prod_decomp (l : List Nat) (a : Nat) (h : a < l.length) :
    l.prod = outerSize l a * rowLen l a := by
  unfold outerSize rowLen axisExtent innerSize
  have hsplit : l.take a ++ l.drop a = l := List.take_append_drop a l
  have hdrop : l.drop a = l[a] :: l.drop (a + 1) := List.drop_eq_getElem_cons h
  calc l.prod = (l.take a ++ l.drop a).prod := by rw [hsplit]
    _ = (l.take a).prod * (l[a] :: l.drop (a + 1)).prod := by rw [List.prod_append, hdrop]
    _ = (l.take a).prod * (l[a] * (l.drop (a + 1)).prod) := by rw [List.prod_cons]
    _ = (l.take a).prod * (l.getD a 0 * (l.drop (a + 1)).prod) := by
          rw [List.getD_eq_getElem _ _ h]

/-! Helper lemmas about flattened chunk lists. -/

theorem flatMap_congr_on {α β : Type} (l : List α) (f g : α → List β)
    (h : ∀ x ∈ l, f x = g x) : l.flatMap f = l.flatMap g := by
  induction l with
  | nil => simp
  | cons a l ih =>
    rw [List.flatMap_cons, List.flatMap_cons, h a (by simp),
        ih (fun x hx => h x (by simp [hx]))]

theorem length_flatMap_const (n c : Nat) (f : Nat → List Int)
    (h : ∀ o, o < n → (f o).length = c) :
    ((List.range n).flatMap f).length = n * c := by
  rw [List.length_flatMap]
  have hmap : (List.range n).map (List.length ∘ f) = (List.range n).map (fun _ => c) :=
    List.map_congr_left (fun a ha => h a (List.mem_range.mp ha))
  rw [hmap, sum_range_map_const]

theorem flatten_extract (chunks : List (List Int)) (r : Nat) (h : r < chunks.length) :
    (chunks.flatten.drop (((chunks.take r).map List.length).sum)).take
        ((chunks.getD r []).length) = chunks.getD r [] := by
  induction chunks generalizing r with
  | nil => simp at h
  | cons c cs ih =>
    cases r with
    | zero =>
      simp only [List.take_zero, List.map_nil, List.sum_nil, List.drop_zero,
        List.getD_cons_zero, List.flatten_cons]
      exact List.take_left c cs.flatten
    | succ m =>
      have hm : m < cs.length := by simpa using h
      simp only [List.take_succ_cons, List.map_cons, List.sum_cons,
        List.getD_cons_succ, List.flatten_cons]
      rw [← List.drop_drop, List.drop_left]
      exact ih m hm

theorem range_flatMap_chunks (n K : Nat) (l : List Int) (hl : l.length = n * K) :
    (List.range n).flatMap (fun o => (l.drop (o * K)).take K) = l := by
  induction n generalizing l with
  | zero =>
    have : l = [] := List.eq_nil_of_length_eq_zero (by simpa using hl)
    simp [this]
  | succ m ih =>
    rw [List.range_succ_eq_map, List.flatMap_cons, List.flatMap_map]
    have hstep : ∀ x ∈ List.range m,
        ((l.drop (Nat.succ x * K)).take K) = (((l.drop K).drop (x * K)).take K) := by
      intro x _
      rw [List.drop_drop]
      have : Nat.succ x * K = K + x * K := by rw [Nat.succ_mul]; omega
      rw [this]
    rw [flatMap_congr_on (List.range m) _ _ hstep]
    have hlen : (l.drop K).length = m * K := by
      rw [List.length_drop, hl, Nat.succ_mul]; omega
    rw [ih (l.drop K) hlen]
    simp

theorem range_flatMap_extract (f : Nat → List Int) (n K o : Nat) (ho : o < n)
    (hf : ∀ i, i < n → (f i).length = K) :
    (((List.range n).flatMap f).drop (o * K)).take K = f o := by
  induction n generalizing f o with
  | zero => simp at ho
  | succ m ih =>
    rw [List.range_succ_eq_map, List.flatMap_cons, List.flatMap_map]
    cases o with
    | zero =>
      simp only [Nat.zero_mul, List.drop_zero]
      rw [← hf 0 (Nat.succ_pos m)]
      exact List.take_left _ _
    | succ j =>
      have hj : j < m := by omega
      have h0 : (f 0).length = K := hf 0 (Nat.succ_pos m)
      have harith : Nat.succ j * K = K + j * K := by rw [Nat.succ_mul]; omega
      rw [harith, ← List.drop_drop, ← h0, List.drop_left, h0]
      exact ih (fun i => f (Nat.succ i)) j hj (fun i hi => hf (Nat.succ i) (by omega))

/-! Helper lemmas about buffer slicing and concatenation. -/

theorem NDBuffer.ext2 (x y : NDBuffer) (h1 : x.shape = y.shape) (h2 : x.data = y.data) :
    x = y := by
  cases x; cases y; cases h1; cases h2; rfl

theorem sliceA_shape (b : NDBuffer) (axis lo len : Nat) :
    (b.sliceA axis lo len).shape = b.shape.set axis len := rfl

theorem sliceA_data (b : NDBuffer) (axis lo len : Nat) :
    (b.sliceA axis lo len).data
      = (List.range (outerSize b.shape axis)).flatMap (fun o =>
          (((b.data.drop (o * rowLen b.shape axis)).take (rowLen b.shape axis)).drop
              (lo * innerSize b.shape axis)).take (len * innerSize b.shape axis)) := rfl

theorem concatA_shape (refShape : List Nat) (axis : Nat) (bs : List NDBuffer) :
    (concatA refShape axis bs).shape
      = refShape.set axis (bs.map (fun b => axisExtent b.shape axis)).sum := rfl

theorem concatA_data (refShape : List Nat) (axis : Nat) (bs : List NDBuffer) :
    (concatA refShape axis bs).data
      = (List.range (outerSize refShape axis)).flatMap (fun o =>
          (bs.map (fun b =>
            (b.data.drop (o * (axisExtent b.shape axis * innerSize refShape axis))).take
              (axisExtent b.shape axis * innerSize refShape axis))).flatten) := rfl

theorem block_take_length (d : List Int) (B o : Nat) (hlen : (o + 1) * B ≤ d.length) :
    ((d.drop (o * B)).take B).length = B := by
  rw [List.length_take, List.length_drop]
  exact Nat.min_eq_left (by rw [Nat.succ_mul] at hlen; omega)

theorem inner_slice_length (c : List Int) (E I lo len : Nat) (hc : c.length = E * I)
    (hb : lo + len ≤ E) : ((c.drop (lo * I)).take (len * I)).length = len * I := by
  rw [List.length_take, List.length_drop, hc]
  apply Nat.min_eq_left
  rw [← Nat.sub_mul]
  exact Nat.mul_le_mul_right I (by omega)

theorem sum_map_mul_right' {α : Type} (l : List α) (f : α → Nat) (c : Nat) :
    (l.map (fun x => f x * c)).sum = (l.map f).sum * c := by
  induction l with
  | nil => simp
  | cons a l ih => simp [ih, Nat.add_mul]

theorem sliceA_wf (b : NDBuffer) (axis lo len : Nat) (hax : axis < b.shape.length)
    (hwf : b.wf) (hb : lo + len ≤ axisExtent b.shape axis) : (b.sliceA axis lo len).wf := by
  have hdl : b.data.length = outerSize b.shape axis * rowLen b.shape axis :=
    hwf.trans (prod_decomp b.shape axis hax)
  have hseg : ∀ o, o < outerSize b.shape axis →
      ((((b.data.drop (o * rowLen b.shape axis)).take (rowLen b.shape axis)).drop
          (lo * innerSize b.shape axis)).take (len * innerSize b.shape axis)).length
        = len * innerSize b.shape axis := by
    intro o ho
    have hbl : ((b.data.drop (o * rowLen b.shape axis)).take (rowLen b.shape axis)).length
        = rowLen b.shape axis := by
      apply block_take_length
      rw [hdl]
      exact Nat.mul_le_mul_right _ ho
    exact inner_slice_length _ (axisExtent b.shape axis) (innerSize b.shape axis) lo len
      (by rw [hbl]; rfl) hb
  show (b.sliceA axis lo len).data.length = (b.sliceA axis lo len).shape.prod
  rw [sliceA_data, sliceA_shape, length_flatMap_const _ _ _ hseg,
      prod_decomp (b.shape.set axis len) axis (by rw [List.length_set]; exact hax)]
  unfold rowLen
  rw [outerSize_set, innerSize_set, axisExtent_set_self _ _ _ hax]

theorem sliceA_full (b : NDBuffer) (axis : Nat) (hax : axis < b.shape.length) (hwf : b.wf) :
    b.sliceA axis 0 (axisExtent b.shape axis) = b := by
  have hdl : b.data.length = outerSize b.shape axis * rowLen b.shape axis :=
    hwf.trans (prod_decomp b.shape axis hax)
  apply NDBuffer.ext2
  · rw [sliceA_shape]
    exact set_getD_self b.shape axis 0 hax
  · rw [sliceA_data]
    have hcongr : ∀ o ∈ List.range (outerSize b.shape axis),
        (((b.data.drop (o * rowLen b.shape axis)).take (rowLen b.shape axis)).drop
            (0 * innerSize b.shape axis)).take
            (axisExtent b.shape axis * innerSize b.shape axis)
          = (b.data.drop (o * rowLen b.shape axis)).take (rowLen b.shape axis) := by
      intro o _
      rw [Nat.zero_mul, List.drop_zero]
      have hR : axisExtent b.shape axis * innerSize b.shape axis = rowLen b.shape axis := rfl
      rw [hR, List.take_take, Nat.min_self]
    rw [flatMap_congr_on _ _ _ hcongr]
    exact range_flatMap_chunks _ _ _ hdl

theorem buf_block_length (refShape : List Nat) (axis : Nat) (hax : axis < refShape.length)
    (b : NDBuffer) (hwfb : b.wf)
    (hsh : b.shape = refShape.set axis (axisExtent b.shape axis)) (o : Nat)
    (ho : o < outerSize refShape axis) :
    ((b.data.drop (o * (axisExtent b.shape axis * innerSize refShape axis))).take
        (axisExtent b.shape axis * innerSize refShape axis)).length
      = axisExtent b.shape axis * innerSize refShape axis := by
  apply block_take_length
  have hlen : b.data.length
      = outerSize refShape axis * (axisExtent b.shape axis * innerSize refShape axis) := by
    rw [NDBuffer.wf] at hwfb
    rw [hwfb, hsh,
        prod_decomp (refShape.set axis (axisExtent b.shape axis)) axis
          (by rw [List.length_set]; exact hax)]
    unfold rowLen
    rw [outerSize_set, innerSize_set, axisExtent_set_self _ _ _ hax]
  rw [hlen]
  exact Nat.mul_le_mul_right _ ho

theorem concat_block_length (refShape : List Nat) (axis : Nat) (bs : List NDBuffer)
    (hax : axis < refShape.length)
    (hb : ∀ i, ∀ _ : i < bs.length, (bs.getD i ⟨[], []⟩).wf ∧
        (bs.getD i ⟨[], []⟩).shape
          = refShape.set axis (axisExtent (bs.getD i ⟨[], []⟩).shape axis))
    (o : Nat) (ho : o < outerSize refShape axis) :
    ((bs.map (fun b =>
        (b.data.drop (o * (axisExtent b.shape axis * innerSize refShape axis))).take
          (axisExtent b.shape axis * innerSize refShape axis))).flatten).length
      = (bs.map (fun b => axisExtent b.shape axis)).sum * innerSize refShape axis := by
  rw [List.length_flatten, List.map_map]
  have hpt : ∀ b ∈ bs,
      (List.length ∘ (fun b =>
        (b.data.drop (o * (axisExtent b.shape axis * innerSize refShape axis))).take
          (axisExtent b.shape axis * innerSize refShape axis))) b
        = axisExtent b.shape axis * innerSize refShape axis := by
    intro b hbmem
    obtain ⟨i, hi, hEq⟩ := List.mem_iff_getElem.mp hbmem
    have hg : bs.getD i ⟨[], []⟩ = bs[i] := List.getD_eq_getElem bs ⟨[], []⟩ hi
    have hwl := hb i hi
    rw [hg, hEq] at hwl
    exact buf_block_length refShape axis hax b hwl.1 hwl.2 o ho
  rw [List.map_congr_left hpt, sum_map_mul_right']

theorem concatA_wf (refShape : List Nat) (axis : Nat) (bs : List NDBuffer)
    (hax : axis < refShape.length)
    (hb : ∀ i, ∀ _ : i < bs.length, (bs.getD i ⟨[], []⟩).wf ∧
        (bs.getD i ⟨[], []⟩).shape
          = refShape.set axis (axisExtent (bs.getD i ⟨[], []⟩).shape axis)) :
    (concatA refShape axis bs).wf := by
  show (concatA refShape axis bs).data.length = (concatA refShape axis bs).shape.prod
  rw [concatA_data, concatA_shape,
      length_flatMap_const _ _ _ (concat_block_length refShape axis bs hax hb),
      prod_decomp (refShape.set axis (bs.map (fun b => axisExtent b.shape axis)).sum) axis
        (by rw [List.length_set]; exact hax)]
  unfold rowLen
  rw [outerSize_set, innerSize_set, axisExtent_set_self _ _ _ hax]

theorem sliceA_concatA (refShape : List Nat) (axis : Nat) (bs : List NDBuffer) (r : Nat)
    (hax : axis < refShape.length) (hr : r < bs.length)
    (hb : ∀ i, ∀ _ : i < bs.length, (bs.getD i ⟨[], []⟩).wf ∧
        (bs.getD i ⟨[], []⟩).shape
          = refShape.set axis (axisExtent (bs.getD i ⟨[], []⟩).shape axis)) :
    (concatA refShape axis bs).sliceA axis
        (((bs.map (fun b => axisExtent b.shape axis)).take r).sum)
        (axisExtent (bs.getD r ⟨[], []⟩).shape axis)
      = bs.getD r ⟨[], []⟩ := by
  have hgr : bs.getD r ⟨[], []⟩ = bs[r] := List.getD_eq_getElem bs ⟨[], []⟩ hr
  have hwr := hb r hr
  rw [hgr] at hwr
  have hE : axisExtent ((concatA refShape axis bs).shape) axis
      = (bs.map (fun b => axisExtent b.shape axis)).sum := by
    rw [concatA_shape]; exact axisExtent_set_self _ _ _ hax
  have hO : outerSize ((concatA refShape axis bs).shape) axis = outerSize refShape axis := by
    rw [concatA_shape]; exact outerSize_set _ _ _
  have hI : innerSize ((concatA refShape axis bs).shape) axis = innerSize refShape axis := by
    rw [concatA_shape]; exact innerSize_set _ _ _
  have hR : rowLen ((concatA refShape axis bs).shape) axis
      = (bs.map (fun b => axisExtent b.shape axis)).sum * innerSize refShape axis := by
    unfold rowLen; rw [hE, hI]
  have hrblock : ∀ o, o < outerSize refShape axis →
      (((bs[r]).data.drop
          (o * (axisExtent (bs[r]).shape axis * innerSize refShape axis))).take
          (axisExtent (bs[r]).shape axis * innerSize refShape axis)).length
        = axisExtent (bs[r]).shape axis * innerSize refShape axis :=
    fun o ho => buf_block_length refShape axis hax (bs[r]) hwr.1 hwr.2 o ho
  apply NDBuffer.ext2
  · rw [sliceA_shape, concatA_shape, List.set_set, hgr]
    exact hwr.2.symm
  · rw [hgr, sliceA_data]
    simp only [hO, hI, hR, concatA_data]
    have hstep : ∀ o ∈ List.range (outerSize refShape axis),
        (((((List.range (outerSize refShape axis)).flatMap (fun o =>
              (bs.map (fun b =>
                (b.data.drop
                    (o * (axisExtent b.shape axis * innerSize refShape axis))).take
                  (axisExtent b.shape axis * innerSize refShape axis))).flatten)).drop
            (o * ((bs.map (fun b => axisExtent b.shape axis)).sum
                * innerSize refShape axis))).take
            ((bs.map (fun b => axisExtent b.shape axis)).sum * innerSize refShape axis)).drop
            (((bs.map (fun b => axisExtent b.shape axis)).take r).sum
              * innerSize refShape axis)).take
            (axisExtent (bs[r]).shape axis * innerSize refShape axis)
          = ((bs[r]).data.drop
              (o * (axisExtent (bs[r]).shape axis * innerSize refShape axis))).take
              (axisExtent (bs[r]).shape axis * innerSize refShape axis) := by
      intro o ho
      have ho' := List.mem_range.mp ho
      rw [range_flatMap_extract _ (outerSize refShape axis)
          ((bs.map (fun b => axisExtent b.shape axis)).sum * innerSize refShape axis) o ho'
          (fun i hi => concat_block_length refShape axis bs hax hb i hi)]
      -- now extract chunk r from the flattened per-buffer blocks of outer slab o
      have hlenmap : r < (bs.map (fun b =>
          (b.data.drop (o * (axisExtent b.shape axis * innerSize refShape axis))).take
            (axisExtent b.shape axis * innerSize refShape axis))).length := by
        rw [List.length_map]; exact hr
      have hc : (bs.map (fun b =>
          (b.data.drop (o * (axisExtent b.shape axis * innerSize refShape axis))).take
            (axisExtent b.shape axis * innerSize refShape axis))).getD r []
          = ((bs[r]).data.drop
              (o * (axisExtent (bs[r]).shape axis * innerSize refShape axis))).take
              (axisExtent (bs[r]).shape axis * innerSize refShape axis) := by
        rw [List.getD_eq_getElem _ _ hlenmap, List.getElem_map]
      have ha : (((bs.map (fun b =>
          (b.data.drop (o * (axisExtent b.shape axis * innerSize refShape axis))).take
            (axisExtent b.shape axis * innerSize refShape axis))).take r).map
            List.length).sum
          = ((bs.map (fun b => axisExtent b.shape axis)).take r).sum
              * innerSize refShape axis := by
        rw [← List.map_take, List.map_map]
        have hpt : ∀ b ∈ bs.take r,
            (List.length ∘ (fun b =>
              (b.data.drop (o * (axisExtent b.shape axis * innerSize refShape axis))).take
                (axisExtent b.shape axis * innerSize refShape axis))) b
              = axisExtent b.shape axis * innerSize refShape axis := by
          intro b hbmem
          obtain ⟨i, hi, hEq⟩ := List.mem_iff_getElem.mp (List.mem_of_mem_take hbmem)
          have hg : bs.getD i ⟨[], []⟩ = bs[i] := List.getD_eq_getElem bs ⟨[], []⟩ hi
          have hwl := hb i hi
          rw [hg, hEq] at hwl
          exact buf_block_length refShape axis hax b hwl.1 hwl.2 o ho'
        rw [List.map_congr_left hpt, sum_map_mul_right', List.map_take]
      have hfe := flatten_extract (bs.map (fun b =>
          (b.data.drop (o * (axisExtent b.shape axis * innerSize refShape axis))).take
            (axisExtent b.shape axis * innerSize refShape axis))) r hlenmap
      rw [ha, hc, hrblock o ho'] at hfe
      exact hfe
    rw [flatMap_congr_on _ _ _ hstep]
    exact range_flatMap_chunks (outerSize refShape axis)
      (axisExtent (bs[r]).shape axis * innerSize refShape axis) (bs[r]).data
      (by
        have hwf := hwr.1
        rw [NDBuffer.wf] at hwf
        rw [hwf, hwr.2,
            prod_decomp (refShape.set axis (axisExtent (bs[r]).shape axis)) axis
              (by rw [List.length_set]; exact hax)]
        unfold rowLen
        rw [outerSize_set, innerSize_set, axisExtent_set_self _ _ _ hax])

theorem canonical_extents (p : Nat) (gs : List Nat) (s : Nat) (bufs : List NDBuffer)
    (hs : s < gs.length) (hcan : canonicalSplit p gs s bufs) :
    bufs.map (fun b => axisExtent b.shape s) = counts (axisExtent gs s) p := by
  apply List.ext_getElem
  · rw [List.length_map, hcan.1, counts_length]
  · intro n h1 h2
    have hn : n < p := by rw [List.length_map, hcan.1] at h1; exact h1
    have hnb : n < bufs.length := by rw [hcan.1]; exact hn
    rw [List.getElem_map]
    have hg : bufs.getD n ⟨[], []⟩ = bufs[n] := List.getD_eq_getElem bufs ⟨[], []⟩ hnb
    have hsh := (hcan.2 n hn).1
    rw [hg] at hsh
    rw [hsh, axisExtent_set_self _ _ _ hs, ← List.getD_eq_getElem _ 0 h2]

theorem zip_map_eq_self {α β : Type} (bs : List α) (cs : List β) (f : α → β → α)
    (hlen : bs.length ≤ cs.length)
    (h : ∀ n, ∀ h1 : n < bs.length, ∀ h2 : n < cs.length, f (bs[n]) (cs[n]) = bs[n]) :
    (bs.zip cs).map (fun x => f x.1 x.2) = bs := by
  apply List.ext_getElem
  · rw [List.length_map, List.length_zip]
    exact Nat.min_eq_left hlen
  · intro n h1 h2
    have hc : n < cs.length := Nat.lt_of_lt_of_le h2 hlen
    simp only [List.getElem_map, List.getElem_zip]
    exact h n h2 hc

theorem getD_map_zip {α β γ : Type} (f : α × β → γ) (xs : List α) (ys : List β) (i : Nat)
    (dx : α) (dy : β) (dg : γ) (hx : i < xs.length) (hy : i < ys.length) :
    ((xs.zip ys).map f).getD i dg = f (xs.getD i dx, ys.getD i dy) := by
  have hz : i < (xs.zip ys).length := by
    rw [List.length_zip]
    exact lt_min hx hy
  rw [List.getD_eq_getElem _ _ (by rw [List.length_map]; exact hz), List.getElem_map,
      List.getElem_zip, List.getD_eq_getElem _ _ hx, List.getD_eq_getElem _ _ hy]

/-! The claims. -/

/-- C5: resplitting a tensor to its current split axis (including `None` on an
unsplit tensor) is the identity: the very same tensor is returned, with local
buffer, global shape and split attribute unchanged, and no communication is
issued (the flag is `false`). -/
theorem c5_resplit_noop (p me : Nat) (allLocals : List NDBuffer) (t : Tensor)
    (hok : ∀ s, t.split = some s → s < t.gshape.length) :
    Tensor.resplit p me allLocals t t.split = some (t, false) := by
  cases hsp : t.split with
  | none => simp [Tensor.resplit, sanitize_axis, hsp]
  | some s =>
    have hs := hok s hsp
    simp [Tensor.resplit, sanitize_axis, hs, hsp]

/-- Witness for C5 at a concrete split tensor. -/
theorem c5_resplit_noop_witness :
    Tensor.resplit 2 0 [⟨[1], [5]⟩, ⟨[1], [6]⟩]
        (Tensor.mk ⟨[1], [5]⟩ [2] 0 (some 0) 3) (some 0) = some (Tensor.mk ⟨[1], [5]⟩ [2] 0 (some 0) 3, false) :=
  c5_resplit_noop 2 0 [⟨[1], [5]⟩, ⟨[1], [6]⟩] (Tensor.mk ⟨[1], [5]⟩ [2] 0 (some 0) 3)
    (fun s hs => by cases hs; decide)

/-- C6: the partition calculator's counts sum to the global extent, rank `r`
receives `base + 1` elements exactly when `r < remainder` (base otherwise),
any two counts differ by at most one, and for `extent = 2` over `5` processes
two ranks receive 1 and three ranks receive 0. -/
theorem c6_partition_balance (extent p : Nat) (hp : 1 ≤ p) :
    (counts extent p).sum = extent ∧
    (∀ r, ∀ _ : r < p, (counts extent p).getD r 0
        = extent / p + if r < extent % p then 1 else 0) ∧
    (∀ i, ∀ _ : i < p, ∀ j, ∀ _ : j < p,
        (counts extent p).getD i 0 ≤ (counts extent p).getD j 0 + 1) ∧
    counts 2 5 = [1, 1, 0, 0, 0] := by
  refine ⟨counts_sum extent p hp, fun r hr => counts_getD extent p r hr, ?_, by decide⟩
  intro i hi j hj
  rw [counts_getD extent p i hi, counts_getD extent p j hj]
  split <;> split <;> omega

/-- Witness for C6 at extent 9 over 4 processes. -/
theorem c6_partition_balance_witness :
    (counts 9 4).sum = 9 ∧
    (∀ r, ∀ _ : r < 4, (counts 9 4).getD r 0 = 9 / 4 + if r < 9 % 4 then 1 else 0) ∧
    (∀ i, ∀ _ : i < 4, ∀ j, ∀ _ : j < 4,
        (counts 9 4).getD i 0 ≤ (counts 9 4).getD j 0 + 1) ∧
    counts 2 5 = [1, 1, 0, 0, 0] :=
  c6_partition_balance 9 4 (by decide)

/-- C7: an indexed write to a tensor whose split axis is not `None` raises
(`NotImplementedError`), for every key and every value, and never yields an
updated tensor: the raise happens before the local buffer is touched, so
buffer, global shape and split attribute are those of the original tensor. -/
theorem c7_setitem_split_raises (t : Tensor) (s : Nat) (key : Nat) (value : SItemValue)
    (h : t.split = some s) :
    Tensor.setitem t key value
        = Except.error "NotImplementedError: Slicing not supported for __split != None" ∧
    ∀ u : Tensor, ¬ Tensor.setitem t key value = Except.ok u := by
  have hcond : t.split ≠ none := by rw [h]; exact fun hc => Option.noConfusion hc
  refine ⟨by simp [Tensor.setitem, hcond], fun u hu => ?_⟩
  simp [Tensor.setitem, hcond] at hu

/-- Witness for C7 at a concrete split tensor, key and scalar value. -/
theorem c7_setitem_split_raises_witness :
    Tensor.setitem (Tensor.mk ⟨[2], [1, 2]⟩ [4] 0 (some 0) 0) 1 (SItemValue.scalar 9)
        = Except.error "NotImplementedError: Slicing not supported for __split != None" ∧
    ∀ u : Tensor, ¬ Tensor.setitem (Tensor.mk ⟨[2], [1, 2]⟩ [4] 0 (some 0) 0) 1
        (SItemValue.scalar 9) = Except.ok u :=
  c7_setitem_split_raises (Tensor.mk ⟨[2], [1, 2]⟩ [4] 0 (some 0) 0) 0 1
    (SItemValue.scalar 9) rfl

/-- C8: resplit, in every one of its outcomes (no-op, gather, local slice,
axis-to-axis exchange), leaves the device tag unchanged. -/
theorem c8_resplit_preserves_device (p me : Nat) (allLocals : List NDBuffer) (t : Tensor)
    (axis0 : Option Nat) (t' : Tensor) (flag : Bool)
    (h : Tensor.resplit p me allLocals t axis0 = some (t', flag)) :
    t'.device = t.device := by
  unfold Tensor.resplit at h
  split at h
  · exact absurd h (by simp)
  · split at h
    · simp only [Option.some.injEq, Prod.mk.injEq] at h
      rw [← h.1]
    · split at h
      all_goals simp only [Option.some.injEq, Prod.mk.injEq] at h
      all_goals rw [← h.1]

/-- Witness for C8 at a concrete scatter-by-slice resplit (device tag 9). -/
theorem c8_resplit_preserves_device_witness :
    (Tensor.mk ⟨[1], [5]⟩ [2] 0 (some 0) 9).device
      = (Tensor.mk ⟨[2], [5, 6]⟩ [2] 0 none 9).device :=
  c8_resplit_preserves_device 2 0 [⟨[2], [5, 6]⟩, ⟨[2], [5, 6]⟩]
    (Tensor.mk ⟨[2], [5, 6]⟩ [2] 0 none 9) (some 0)
    (Tensor.mk ⟨[1], [5]⟩ [2] 0 (some 0) 9) false (by decide)

/-- C9: element-wise equality comparison never yields an element-wise result:
`Tensor.__eq__`'s body is only its docstring, so it returns `None` for every
tensor and every second operand. -/
theorem c9_eq_returns_none (t : Tensor) (w : SItemValue) : Tensor.eq t w = none :=
  rfl

/-- C10: indexed read access always raises a `TypeError`: `__getitem__` passes
five positional arguments to the six-parameter constructor, so no sliced
tensor is ever returned. -/
theorem c10_getitem_type_error (t : Tensor) (key : Nat) :
    Tensor.getitem t key
      = Except.error "TypeError: __init__ missing required positional arguments" :=
  rfl

/-- C4: on global shape `(9, 4)` split along axis 0 over 4 processes (counts
`[3, 2, 2, 2]`), gathering to unsplit and re-splitting along axis 0
reproduces the original per-process tensors (local buffers byte-identical)
on every process. -/
theorem c4_round_trip :
    ((resplitWorld c4World none).bind
        (fun l => resplitWorld (l.map Prod.fst) (some 0))).map
        (fun l => l.map Prod.fst)
      = some c4World := by
  decide

/-- C3: resplitting an unsplit tensor to a real axis `a` issues no
communication (flag `false`): the process independently slices its complete
local copy to `[displacement[rank], displacement[rank] + count[rank])` along
`a`, where counts and displacements partition the global extent along `a`,
and the split attribute becomes `a`; afterwards the local shape is the global
shape with the extent along `a` replaced by this rank's count, and the buffer
is well-formed. -/
theorem c3_split_from_unsplit (p me a : Nat) (allLocals : List NDBuffer) (t : Tensor)
    (hp : 1 ≤ p) (hme : me < p) (hsplit : t.split = none) (ha : a < t.gshape.length)
    (hfull : t.larray.shape = t.gshape) (hwf : t.larray.wf) :
    Tensor.resplit p me allLocals t (some a)
        = some (Tensor.mk
            (t.larray.sliceA a ((displs (axisExtent t.gshape a) p).getD me 0)
              ((counts (axisExtent t.gshape a) p).getD me 0))
            t.gshape t.dtype (some a) t.device, false) ∧
    (t.larray.sliceA a ((displs (axisExtent t.gshape a) p).getD me 0)
        ((counts (axisExtent t.gshape a) p).getD me 0)).shape
      = t.gshape.set a ((counts (axisExtent t.gshape a) p).getD me 0) ∧
    (t.larray.sliceA a ((displs (axisExtent t.gshape a) p).getD me 0)
        ((counts (axisExtent t.gshape a) p).getD me 0)).wf := by
  refine ⟨?_, ?_, ?_⟩
  · simp [Tensor.resplit, sanitize_axis, ha, hsplit, chunk]
  · rw [sliceA_shape, hfull]
  · apply sliceA_wf
    · rw [hfull]; exact ha
    · exact hwf
    · rw [hfull]
      exact partition_bound (axisExtent t.gshape a) p me hp hme

/-- Witness for C3: two processes, rank 1 slicing an unsplit tensor of global
shape `(3,)` to split axis 0. -/
theorem c3_split_from_unsplit_witness :
    Tensor.resplit 2 1 [⟨[3], [1, 2, 3]⟩, ⟨[3], [1, 2, 3]⟩]
        (Tensor.mk ⟨[3], [1, 2, 3]⟩ [3] 0 none 0) (some 0)
        = some (Tensor.mk
            ((⟨[3], [1, 2, 3]⟩ : NDBuffer).sliceA 0 ((displs (axisExtent [3] 0) 2).getD 1 0)
              ((counts (axisExtent [3] 0) 2).getD 1 0)) [3] 0 (some 0) 0, false) ∧
    (((⟨[3], [1, 2, 3]⟩ : NDBuffer).sliceA 0 ((displs (axisExtent [3] 0) 2).getD 1 0)
        ((counts (axisExtent [3] 0) 2).getD 1 0)).shape
      = [3].set 0 ((counts (axisExtent [3] 0) 2).getD 1 0)) ∧
    ((⟨[3], [1, 2, 3]⟩ : NDBuffer).sliceA 0 ((displs (axisExtent [3] 0) 2).getD 1 0)
        ((counts (axisExtent [3] 0) 2).getD 1 0)).wf :=
  c3_split_from_unsplit 2 1 0 [⟨[3], [1, 2, 3]⟩, ⟨[3], [1, 2, 3]⟩]
    (Tensor.mk ⟨[3], [1, 2, 3]⟩ [3] 0 none 0) (by decide) (by decide) rfl (by decide) rfl rfl

/-- C2: gathering a tensor split along a real axis `s` (resplit to `None`)
makes every process hold the complete array — the gathered local shape equals
the global shape and the buffer is well-formed — with the chunk contributed by
rank `r` placed at `displacement[r]` along the old split axis `s` (slicing the
gathered buffer at `[displacement[r], displacement[r] + count[r])` along `s`
recovers exactly rank `r`'s buffer), and the split attribute becomes `None`.
The gather primitive is modelled from the spec (`gather_all`, spec sections
4.2 and 4.3 case 2), the communication module not being under the sources. -/
theorem c2_unsplit_gather (p me s : Nat) (gs : List Nat) (allLocals : List NDBuffer)
    (t : Tensor) (hp : 1 ≤ p) (_hme : me < p) (hgs : t.gshape = gs)
    (hsplit : t.split = some s) (hs : s < gs.length)
    (hcan : canonicalSplit p gs s allLocals) :
    ∃ g : NDBuffer,
      Tensor.resplit p me allLocals t none
          = some (Tensor.mk g t.gshape t.dtype none t.device, true) ∧
      g.shape = gs ∧ g.wf ∧
      ∀ r, ∀ _ : r < p,
        g.sliceA s ((displs (axisExtent gs s) p).getD r 0)
            ((counts (axisExtent gs s) p).getD r 0)
          = allLocals.getD r ⟨[], []⟩ := by
  subst hgs
  have hzip : (allLocals.zip (counts (axisExtent t.gshape s) p)).map
      (fun x => x.1.sliceA s 0 x.2) = allLocals := by
    apply zip_map_eq_self allLocals (counts (axisExtent t.gshape s) p)
      (fun b c => b.sliceA s 0 c)
    · exact le_of_eq (by rw [hcan.1, counts_length])
    · intro n h1 h2
      have hn : n < p := by rw [hcan.1] at h1; exact h1
      have hg : allLocals.getD n ⟨[], []⟩ = allLocals[n] :=
        List.getD_eq_getElem allLocals ⟨[], []⟩ h1
      have hprop := hcan.2 n hn
      rw [hg] at hprop
      have hext : axisExtent (allLocals[n]).shape s
          = (counts (axisExtent t.gshape s) p).getD n 0 := by
        rw [hprop.1]
        exact axisExtent_set_self _ _ _ hs
      have hcount : (counts (axisExtent t.gshape s) p)[n]
          = (counts (axisExtent t.gshape s) p).getD n 0 :=
        (List.getD_eq_getElem _ 0 h2).symm
      rw [hcount, ← hext]
      exact sliceA_full (allLocals[n]) s
        (by rw [hprop.1, List.length_set]; exact hs) hprop.2
  have hb : ∀ i, ∀ _ : i < allLocals.length, (allLocals.getD i ⟨[], []⟩).wf ∧
      (allLocals.getD i ⟨[], []⟩).shape
        = t.gshape.set s (axisExtent (allLocals.getD i ⟨[], []⟩).shape s) := by
    intro i hi
    have hip : i < p := by rw [← hcan.1]; exact hi
    have hprop := hcan.2 i hip
    refine ⟨hprop.2, ?_⟩
    rw [hprop.1, axisExtent_set_self _ _ _ hs]
  have hgather : Allgatherv t.gshape allLocals (counts (axisExtent t.gshape s) p)
      (displs (axisExtent t.gshape s) p) s = concatA t.gshape s allLocals := by
    unfold Allgatherv
    rw [hzip]
  refine ⟨Allgatherv t.gshape allLocals (counts (axisExtent t.gshape s) p)
      (displs (axisExtent t.gshape s) p) s, ?_, ?_, ?_, ?_⟩
  · simp [Tensor.resplit, sanitize_axis, hsplit, counts_displs_shape]
  · rw [hgather, concatA_shape, canonical_extents p t.gshape s allLocals hs hcan,
        counts_sum _ _ hp]
    exact set_getD_self t.gshape s 0 hs
  · rw [hgather]
    exact concatA_wf t.gshape s allLocals hs hb
  · intro r hr
    have hrb : r < allLocals.length := by rw [hcan.1]; exact hr
    have key := sliceA_concatA t.gshape s allLocals r hs hrb hb
    have hlo : ((allLocals.map (fun b => axisExtent b.shape s)).take r).sum
        = (displs (axisExtent t.gshape s) p).getD r 0 := by
      rw [canonical_extents p t.gshape s allLocals hs hcan, displs_getD _ _ _ hr]
    have hlen2 : axisExtent (allLocals.getD r ⟨[], []⟩).shape s
        = (counts (axisExtent t.gshape s) p).getD r 0 := by
      rw [(hcan.2 r hr).1]
      exact axisExtent_set_self _ _ _ hs
    rw [hlo, hlen2] at key
    rw [hgather]
    exact key

/-- Witness for C2: two processes, global shape `(3,)` split along axis 0 with
counts `[2, 1]`. -/
theorem c2_unsplit_gather_witness :
    ∃ g : NDBuffer,
      Tensor.resplit 2 0 [⟨[2], [10, 11]⟩, ⟨[1], [12]⟩]
          (Tensor.mk ⟨[2], [10, 11]⟩ [3] 0 (some 0) 7) none
          = some (Tensor.mk g [3] 0 none 7, true) ∧
      g.shape = [3] ∧ g.wf ∧
      ∀ r, ∀ _ : r < 2,
        g.sliceA 0 ((displs (axisExtent [3] 0) 2).getD r 0)
            ((counts (axisExtent [3] 0) 2).getD r 0)
          = [(⟨[2], [10, 11]⟩ : NDBuffer), ⟨[1], [12]⟩].getD r ⟨[], []⟩ :=
  c2_unsplit_gather 2 0 0 [3] [⟨[2], [10, 11]⟩, ⟨[1], [12]⟩]
    (Tensor.mk ⟨[2], [10, 11]⟩ [3] 0 (some 0) 7) (by decide) (by decide) rfl rfl (by decide)
    (by unfold canonicalSplit NDBuffer.wf; decide)

/-- C1, refuted as stated: in the axis-to-axis case (old split axis 0, new
axis 1, global shape `(6, 4)`, 2 processes, local shape `(3, 4)`), the claim
says the send counts passed to the exchange describe what this process holds
under the old layout (the partition of `GlobalShape[0]`, `[3, 3]`) and the
receive counts describe the target distribution along the new axis (the
partition of `GlobalShape[1]`, `[2, 2]`).  The code computes the send counts
from the local shape along the new axis (`[2, 2]`) and the receive counts
from the global shape along the old split axis (`[3, 3]`) — exactly the
opposite assignment. -/
theorem c1_claim_counterexample :
    ¬ ((sendParamsA2A 2 (lshape c1T0) 1).1 = counts (axisExtent c1T0.gshape 0) 2 ∧
       (counts_displs_shape 2 c1T0.gshape 0).1 = counts (axisExtent c1T0.gshape 1) 2) := by
  decide

/-- C1 (amended): in the axis-to-axis resplit (old split axis `s` and new
axis `a` both real and distinct), the send counts/displacements the process
passes to the all-to-all exchange are the partition of the global extent
along the *new* axis `a` (the target distribution, read off its local shape),
the receive counts/displacements are the partition of the global extent along
the *old* split axis `s` (what each process currently holds), the exchange
reassembles the received pieces along the old split axis
(`recv_axis = self.split`), and after the exchange the Local/Global shape
invariant holds with the split attribute equal to the new axis: the new local
buffer is well-formed with shape equal to the global shape where the extent
along `a` is replaced by this rank's count.  The exchange primitive is
modelled from the spec (`exchange_all`, spec section 4.2), the communication
module not being under the sources. -/
theorem c1_axis_to_axis_amended (p me s a : Nat) (gs : List Nat)
    (allLocals : List NDBuffer) (t : Tensor) (hp : 1 ≤ p) (hme : me < p)
    (hgs : t.gshape = gs) (hsplit : t.split = some s) (hs : s < gs.length)
    (ha : a < gs.length) (hne : a ≠ s)
    (hl : t.larray.shape = gs.set s ((counts (axisExtent gs s) p).getD me 0))
    (hcan : canonicalSplit p gs s allLocals) :
    sendParamsA2A p (lshape t) a
        = (counts (axisExtent gs a) p, displs (axisExtent gs a) p) ∧
    (counts_displs_shape p gs s).1 = counts (axisExtent gs s) p ∧
    (counts_displs_shape p gs s).2.1 = displs (axisExtent gs s) p ∧
    ∃ g : NDBuffer,
      Tensor.resplit p me allLocals t (some a)
          = some (Tensor.mk g t.gshape t.dtype (some a) t.device, true) ∧
      g.shape = gs.set a ((counts (axisExtent gs a) p).getD me 0) ∧ g.wf := by
  subst hgs
  refine ⟨?_, rfl, rfl, ?_⟩
  · unfold sendParamsA2A lshape
    rw [hl, axisExtent_set_ne _ s a _ (Ne.symm hne)]
  -- the received pieces
  have hPlen : (a2aPieces p me a s allLocals (counts (axisExtent t.gshape s) p)).length
      = p := by
    unfold a2aPieces
    rw [List.length_map, List.length_zip, hcan.1, counts_length]
    exact Nat.min_self p
  have hPfacts : ∀ i, i < p →
      ((a2aPieces p me a s allLocals (counts (axisExtent t.gshape s) p)).getD i
          ⟨[], []⟩).wf ∧
      ((a2aPieces p me a s allLocals (counts (axisExtent t.gshape s) p)).getD i
          ⟨[], []⟩).shape
        = (t.gshape.set a ((counts (axisExtent t.gshape a) p).getD me 0)).set s
            ((counts (axisExtent t.gshape s) p).getD i 0) := by
    intro i hi
    have hia : i < allLocals.length := by rw [hcan.1]; exact hi
    have hic : i < (counts (axisExtent t.gshape s) p).length := by
      rw [counts_length]; exact hi
    have hprop := hcan.2 i hi
    have hraw : (a2aPieces p me a s allLocals (counts (axisExtent t.gshape s) p)).getD i
        ⟨[], []⟩
        = a2aPiece p me a s ((counts (axisExtent t.gshape s) p).getD i 0)
            (allLocals.getD i ⟨[], []⟩) := by
      unfold a2aPieces
      exact getD_map_zip (fun bc => a2aPiece p me a s bc.2 bc.1) allLocals
        (counts (axisExtent t.gshape s) p) i ⟨[], []⟩ 0 ⟨[], []⟩ hia hic
    have hexta : axisExtent (allLocals.getD i ⟨[], []⟩).shape a
        = axisExtent t.gshape a := by
      rw [hprop.1]
      exact axisExtent_set_ne _ s a _ (Ne.symm hne)
    have hlen1 : a < (allLocals.getD i ⟨[], []⟩).shape.length := by
      rw [hprop.1, List.length_set]; exact ha
    have hwf1 : ((allLocals.getD i ⟨[], []⟩).sliceA a
        ((displs (axisExtent t.gshape a) p).getD me 0)
        ((counts (axisExtent t.gshape a) p).getD me 0)).wf := by
      apply sliceA_wf _ _ _ _ hlen1 hprop.2
      rw [hexta]
      exact partition_bound (axisExtent t.gshape a) p me hp hme
    have hshape1 : ((allLocals.getD i ⟨[], []⟩).sliceA a
        ((displs (axisExtent t.gshape a) p).getD me 0)
        ((counts (axisExtent t.gshape a) p).getD me 0)).shape
        = (t.gshape.set s ((counts (axisExtent t.gshape s) p).getD i 0)).set a
            ((counts (axisExtent t.gshape a) p).getD me 0) := by
      rw [sliceA_shape, hprop.1]
    have hsimp : (a2aPieces p me a s allLocals (counts (axisExtent t.gshape s) p)).getD i
        ⟨[], []⟩
        = (allLocals.getD i ⟨[], []⟩).sliceA a
            ((displs (axisExtent t.gshape a) p).getD me 0)
            ((counts (axisExtent t.gshape a) p).getD me 0) := by
      rw [hraw]
      unfold a2aPiece
      simp only [sendParamsA2A]
      rw [hexta]
      have hext1s : axisExtent ((allLocals.getD i ⟨[], []⟩).sliceA a
          ((displs (axisExtent t.gshape a) p).getD me 0)
          ((counts (axisExtent t.gshape a) p).getD me 0)).shape s
          = (counts (axisExtent t.gshape s) p).getD i 0 := by
        rw [hshape1, axisExtent_set_ne _ a s _ hne, axisExtent_set_self _ _ _ hs]
      rw [← hext1s]
      apply sliceA_full
      · rw [hshape1, List.length_set, List.length_set]; exact hs
      · exact hwf1
    refine ⟨?_, ?_⟩
    · rw [hsimp]; exact hwf1
    · rw [hsimp, hshape1]
      exact List.set_comm _ _ _ (Ne.symm hne)
  have hbP : ∀ i, ∀ _ : i <
      (a2aPieces p me a s allLocals (counts (axisExtent t.gshape s) p)).length,
      ((a2aPieces p me a s allLocals (counts (axisExtent t.gshape s) p)).getD i
          ⟨[], []⟩).wf ∧
      ((a2aPieces p me a s allLocals (counts (axisExtent t.gshape s) p)).getD i
          ⟨[], []⟩).shape
        = (t.gshape.set a ((counts (axisExtent t.gshape a) p).getD me 0)).set s
            (axisExtent ((a2aPieces p me a s allLocals
                (counts (axisExtent t.gshape s) p)).getD i ⟨[], []⟩).shape s) := by
    intro i hi
    have hip : i < p := by rw [← hPlen]; exact hi
    obtain ⟨hw, hsh⟩ := hPfacts i hip
    refine ⟨hw, ?_⟩
    rw [hsh, axisExtent_set_self _ _ _ (by rw [List.length_set]; exact hs)]
  have hOsLen : s < (t.gshape.set a ((counts (axisExtent t.gshape a) p).getD me 0)).length := by
    rw [List.length_set]; exact hs
  have hPext : (a2aPieces p me a s allLocals (counts (axisExtent t.gshape s) p)).map
      (fun b => axisExtent b.shape s) = counts (axisExtent t.gshape s) p := by
    apply List.ext_getElem
    · rw [List.length_map, hPlen, counts_length]
    · intro n h1 h2
      have hn : n < p := by rw [List.length_map, hPlen] at h1; exact h1
      have hnp : n < (a2aPieces p me a s allLocals
          (counts (axisExtent t.gshape s) p)).length := by
        rw [hPlen]; exact hn
      rw [List.getElem_map, ← List.getD_eq_getElem _ ⟨[], []⟩ hnp,
          (hPfacts n hn).2, axisExtent_set_self _ _ _ (by rw [List.length_set]; exact hs),
          ← List.getD_eq_getElem _ 0 h2]
  refine ⟨Alltoallv p (t.gshape.set a ((counts (axisExtent t.gshape a) p).getD me 0))
      allLocals a s me (counts (axisExtent t.gshape s) p)
      (displs (axisExtent t.gshape s) p), ?_, ?_, ?_⟩
  · simp [Tensor.resplit, sanitize_axis, ha, hsplit, hne, chunk, counts_displs_shape]
  · show (concatA (t.gshape.set a ((counts (axisExtent t.gshape a) p).getD me 0)) s
        (a2aPieces p me a s allLocals (counts (axisExtent t.gshape s) p))).shape = _
    rw [concatA_shape, hPext, counts_sum _ _ hp,
        show axisExtent t.gshape s
            = axisExtent (t.gshape.set a ((counts (axisExtent t.gshape a) p).getD me 0)) s
          from (axisExtent_set_ne _ a s _ hne).symm]
    exact set_getD_self _ s 0 hOsLen
  · show (concatA (t.gshape.set a ((counts (axisExtent t.gshape a) p).getD me 0)) s
        (a2aPieces p me a s allLocals (counts (axisExtent t.gshape s) p))).wf
    exact concatA_wf _ s _ hOsLen hbP

/-- Witness for C1 (amended) at the counterexample configuration: 2 processes,
global shape `(6, 4)`, old split axis 0, new axis 1, rank 0. -/
theorem c1_axis_to_axis_amended_witness :
    sendParamsA2A 2 (lshape c1T0) 1
        = (counts (axisExtent [6, 4] 1) 2, displs (axisExtent [6, 4] 1) 2) ∧
    (counts_displs_shape 2 [6, 4] 0).1 = counts (axisExtent [6, 4] 0) 2 ∧
    (counts_displs_shape 2 [6, 4] 0).2.1 = displs (axisExtent [6, 4] 0) 2 ∧
    ∃ g : NDBuffer,
      Tensor.resplit 2 0 c1Locals c1T0 (some 1)
          = some (Tensor.mk g c1T0.gshape c1T0.dtype (some 1) c1T0.device, true) ∧
      g.shape = [6, 4].set 1 ((counts (axisExtent [6, 4] 1) 2).getD 0 0) ∧ g.wf :=
  c1_axis_to_axis_amended 2 0 0 1 [6, 4] c1Locals c1T0 (by decide) (by decide) rfl rfl
    (by decide) (by decide) (by decide) (by decide)
    (by unfold canonicalSplit NDBuffer.wf; decide)

end Heat
